import Mathlib

/-!
Verification of the order-management core of the repository
`FINM32500---Computing-for-Finance-in-Python`.

Namespace `A4` embeds `assignment 4` (order lifecycle state machine,
risk engine, FIX message decoder); namespace `A2` embeds `Assignment 2`
(the naive list-based order book `baseline.py`, the DataFrame-backed
`optimization.py` book, the hand-rolled heap selection `HeapSort_Opt.py`,
and the queries issued in `JeremyZ/Query.py`).

Python `int` values are modelled as `Int`, Python `float` prices as `ℚ`
(the claims under study depend only on ordering and equality of prices),
Python `dict`s as insertion-ordered association lists with first-match
lookup and in-place update, and Python `list`s as `List`.
-/

namespace A4

/-- The five lifecycle states of `order.py`. -/
inductive OrderState
  | NEW
  | ACKED
  | FILLED
  | CANCELED
  | REJECTED
deriving DecidableEq

/-- The `Order` class of `order.py` (the fields read by the code under
verification). -/
structure Order where
  symbol : String
  qty : Int
  side : String
  state : OrderState
deriving DecidableEq

/-- The `allowed` dictionary inside `Order.transition`: states absent from
the dictionary (the terminal ones) map to `none`. -/
def allowedNext : OrderState → Option (List OrderState)
  | .NEW => some [.ACKED, .REJECTED]
  | .ACKED => some [.FILLED, .CANCELED]
  | _ => none

/-- `Order.transition` of `order.py`: returns the success flag together with
the (possibly updated) order.  A current state missing from `allowed`, or a
requested state not in its allowed set, fails and leaves the order as it was. -/
def Order.transition (o : Order) (new_state : OrderState) : Bool × Order :=
  match allowedNext o.state with
  | none => (false, o)
  | some ns =>
    if new_state ∈ ns then (true, { o with state := new_state }) else (false, o)

/-- Python `str.upper` restricted to ASCII, which is all the risk engine's
side strings use. -/
def pyUpper (s : String) : String := String.mk (s.data.map Char.toUpper)

/-- Lookup in a Python dict modelled as an association list:
`d.get(k, 0)`. -/
def dictGet (d : List (String × Int)) (k : String) : Int :=
  match d.find? (fun p => p.1 == k) with
  | some p => p.2
  | none => 0

/-- Python dict assignment `d[k] = v`: replace in place if the key exists,
otherwise append. -/
def dictSet : List (String × Int) → String → Int → List (String × Int)
  | [], k, v => [(k, v)]
  | p :: d, k, v => if p.1 == k then (k, v) :: d else p :: dictSet d k v

/-- The `RiskEngine` class of `risk_engine.py`. -/
structure RiskEngine where
  max_order_size : Int
  max_position : Int
  positions : List (String × Int)
deriving DecidableEq

/-- The `new_position` computed inside `RiskEngine.check` and
`RiskEngine.update_position`: the current position (0 for an unseen symbol)
plus the quantity for a side that upper-cases to `"BUY"`, minus it for any
other side string. -/
def RiskEngine.projected (e : RiskEngine) (o : Order) : Int :=
  let current := dictGet e.positions o.symbol
  if pyUpper o.side = "BUY" then current + o.qty else current - o.qty

/-- The three ways `RiskEngine.check` can return, distinguished in the source
by the logged rejection reason. -/
inductive CheckOutcome
  | rejectSize
  | rejectPosition
  | approve
deriving DecidableEq

/-- The branch structure of `RiskEngine.check`: order-size rule first, then
the position rule on the projected position; approval otherwise. -/
def RiskEngine.checkOutcome (e : RiskEngine) (o : Order) : CheckOutcome :=
  if o.qty > e.max_order_size then .rejectSize
  else if |e.projected o| > e.max_position then .rejectPosition
  else .approve

/-- The boolean returned by `RiskEngine.check`. -/
def RiskEngine.check (e : RiskEngine) (o : Order) : Bool :=
  match e.checkOutcome o with
  | .approve => true
  | _ => false

/-- `RiskEngine.check` with the engine state threaded explicitly: the method
body only reads `self`, so the outgoing engine is the incoming one. -/
def RiskEngine.checkS (e : RiskEngine) (o : Order) : Bool × RiskEngine :=
  (e.check o, e)

/-- `n` further repetitions of `check` on the engine state left behind by the
previous call, returning the last result. -/
def RiskEngine.checkIter (e : RiskEngine) (o : Order) : Nat → Bool
  | 0 => e.check o
  | k + 1 => (e.checkS o).2.checkIter o k

/-- `RiskEngine.update_position` of `risk_engine.py`: a no-op unless the
order is FILLED, otherwise the signed fill quantity is applied to the
symbol's position. -/
def RiskEngine.update_position (e : RiskEngine) (o : Order) : RiskEngine :=
  if o.state ≠ OrderState.FILLED then e
  else
    let current := dictGet e.positions o.symbol
    let newPos := if pyUpper o.side = "BUY" then current + o.qty else current - o.qty
    { e with positions := dictSet e.positions o.symbol newPos }

/-- `RiskEngine.get_position`. -/
def RiskEngine.get_position (e : RiskEngine) (s : String) : Int :=
  dictGet e.positions s

/-- The engine built by `RiskEngine.__init__` with its default limits. -/
def RiskEngine.init : RiskEngine :=
  { max_order_size := 1000, max_position := 2000, positions := [] }

/-! ### The FIX decoder of `fix_parser.py` -/

/-- Generic Python dict lookup `d.get(k)` over an insertion-ordered
association list. -/
def pyLookup {β : Type} : List (String × β) → String → Option β
  | [], _ => none
  | p :: d, k => if p.1 == k then some p.2 else pyLookup d k

/-- Generic Python dict assignment `d[k] = v`: replace in place if the key
exists, otherwise append. -/
def pySet {β : Type} : List (String × β) → String → β → List (String × β)
  | [], k, v => [(k, v)]
  | p :: d, k, v => if p.1 == k then (k, v) :: d else p :: pySet d k v

/-- The characters Python `int(str)` strips around a numeral (ASCII
whitespace). -/
def pyIsSpace (c : Char) : Bool :=
  c == ' ' || c == '\t' || c == '\n' || c == '\r' || c == '\x0b' || c == '\x0c'

/-- Digit string as accepted by Python `int` after the optional sign: digits
with single underscores allowed between digits only.  `pyDigitsCore`
consumes the characters after the leading digit. -/
def pyDigitsCore : List Char → Nat → Option Nat
  | [], acc => some acc
  | '_' :: c :: cs, acc =>
    if c.isDigit then pyDigitsCore cs (acc * 10 + (c.toNat - 48)) else none
  | c :: cs, acc =>
    if c.isDigit then pyDigitsCore cs (acc * 10 + (c.toNat - 48)) else none

/-- The numeral must start with a digit (a leading underscore is an error). -/
def pyDigitsStart : List Char → Option Nat
  | [] => none
  | c :: cs => if c.isDigit then pyDigitsCore cs (c.toNat - 48) else none

/-- Python `int(s)` on a string: strip whitespace, optional sign, digits
(with legal underscores); `none` models the `ValueError` it raises
otherwise. -/
def pyToInt (s : String) : Option Int :=
  let l := ((s.data.dropWhile pyIsSpace).reverse.dropWhile pyIsSpace).reverse
  match l with
  | '-' :: rest => (pyDigitsStart rest).map (fun n => -(n : Int))
  | '+' :: rest => (pyDigitsStart rest).map (fun n => (n : Int))
  | _ => (pyDigitsStart l).map (fun n => (n : Int))

/-- `FixParser.ESSENTIAL_TAGS`. -/
def ESSENTIAL_TAGS : List (Int × String) :=
  [(8, "BeginString"), (9, "BodyLength"), (35, "MsgType"), (49, "SenderCompID"),
   (56, "TargetCompID"), (34, "MsgSeqNum"), (52, "SendingTime"), (55, "Symbol"),
   (54, "Side"), (40, "OrdType"), (11, "ClOrdID"), (39, "OrdStatus"),
   (150, "ExecType"), (60, "TransactTime"), (10, "CheckSum")]

/-- Whitelist lookup `ESSENTIAL_TAGS[tag_num]`. -/
def tagName (t : Int) : Option String :=
  (ESSENTIAL_TAGS.find? (fun p => p.1 == t)).map (·.2)

/-- `FixParser.SIDES` — the closed side enumeration. -/
def SIDES : List (String × String) := [("1", "Buy"), ("2", "Sell")]

/-- Python `str.split(sep)` for a one-character separator: split at every
occurrence, keeping empty pieces.  `cur` accumulates the current piece in
reverse. -/
def pySplitAux (sep : Char) : List Char → List Char → List String
  | [], cur => [String.mk cur.reverse]
  | c :: cs, cur =>
    if c = sep then String.mk cur.reverse :: pySplitAux sep cs []
    else pySplitAux sep cs (c :: cur)

/-- `s.split(sep)` for a one-character separator. -/
def pySplit (sep : Char) (s : String) : List String := pySplitAux sep s.data []

/-- Split at the first `'='`: the characters before it (accumulated in
`pre`, reversed) and everything after it. -/
def splitEqAux : List Char → List Char → Option (String × String)
  | [], _ => none
  | c :: cs, pre =>
    if c = '=' then some (String.mk pre.reverse, String.mk cs)
    else splitEqAux cs (c :: pre)

/-- `field.split('=', 1)`: `none` when the field contains no `'='` (the
loop then `continue`s), otherwise the part before the first `'='` and
everything after it. -/
def splitField (f : String) : Option (String × String) :=
  splitEqAux f.data []

/-- The field loop of `FixParser.parse`: skip fields without `'='`;
`int(tag)` may raise (`Except.error`); whitelisted tags are written into the
`parsed` dict, unknown integer tags are ignored. -/
def parseFieldsAux : List String → List (String × String) →
    Except String (List (String × String))
  | [], parsed => .ok parsed
  | f :: fs, parsed =>
    match splitField f with
    | none => parseFieldsAux fs parsed
    | some (t, v) =>
      match pyToInt t with
      | none => .error ("ValueError: invalid literal for int with base 10: " ++ t)
      | some tn =>
        match tagName tn with
        | some nm => parseFieldsAux fs (pySet parsed nm v)
        | none => parseFieldsAux fs parsed

/-- The extraction phase of `FixParser.parse`: split on `'|'` and run the
field loop on an empty dict. -/
def FixParser.extract (msg : String) : Except String (List (String × String)) :=
  parseFieldsAux (pySplit '|' msg) []

/-- `FixParser._validate_essential_fields`: `MsgType` always required; for a
`'D'` message the fields Symbol, Side, OrdType are required in that order,
then the side value must be a key of `SIDES`. -/
def FixParser.validate (parsed : List (String × String)) : Except String Unit :=
  match pyLookup parsed "MsgType" with
  | none => .error "Missing MsgType (tag 35)"
  | some mt =>
    if mt = "D" then
      match pyLookup parsed "Symbol" with
      | none => .error "Missing required field: Symbol"
      | some _ =>
        match pyLookup parsed "Side" with
        | none => .error "Missing required field: Side"
        | some sd =>
          match pyLookup parsed "OrdType" with
          | none => .error "Missing required field: OrdType"
          | some _ =>
            if (SIDES.find? (fun p => p.1 == sd)).isSome then .ok ()
            else .error ("Invalid side: " ++ sd)
    else .ok ()

/-- `FixParser.parse`: extract the fields, validate, and return the parsed
mapping. -/
def FixParser.parse (msg : String) : Except String (List (String × String)) :=
  match FixParser.extract msg with
  | .error e => .error e
  | .ok parsed =>
    match FixParser.validate parsed with
    | .error e => .error e
    | .ok _ => .ok parsed

/-- All `'='`-fields of the message, as (tag string, value) pairs, in wire
order. -/
def fieldsOf (msg : String) : List (String × String) :=
  (pySplit '|' msg).filterMap splitField

/-- Decidable well-formedness of the tags: every `'='`-field has a tag that
Python `int` accepts. -/
def tagsOkB (msg : String) : Bool :=
  (fieldsOf msg).all (fun p => (pyToInt p.1).isSome)

/-- Among a list of raw fields, the last value carried by a tag naming the
whitelisted field `nm` (several tag spellings such as `35` and `035` denote
the same field; the dict keeps the last one written). -/
def lastTagged (fs : List String) (nm : String) : Option String :=
  (((fs.filterMap splitField).filter
      (fun p => ((pyToInt p.1).bind tagName) == some nm)).map (·.2)).getLast?

/-- The last value supplied on the wire for the whitelisted field named
`nm`. -/
def lastSupplied (msg : String) (nm : String) : Option String :=
  lastTagged (pySplit '|' msg) nm

/-- The extracted dict of a message whose extraction succeeds. -/
def extractD (msg : String) : List (String × String) :=
  match FixParser.extract msg with
  | .ok d => d
  | .error _ => []

end A4

namespace A2

/-- The two values the `'side'` key of an order dict takes in
`Assignment 2` (`baseline.add_order` raises on anything else, and the
drivers only ever supply these two). -/
inductive Side
  | bid
  | ask
deriving DecidableEq

/-- An order dict of `Assignment 2`: the keys `order_id`, `price`,
`quantity`, `side` used by the code, plus `arrival`, ghost instrumentation
recording the position of the order's `add` in the operation sequence
(used only to state time priority; no operation reads it). -/
structure BOrder where
  order_id : Nat
  price : ℚ
  quantity : Int
  side : Side
  arrival : Nat
deriving DecidableEq

/-- The comparison `sorted(key=price, reverse=True)` sorts by: descending
price. -/
def rBid (a b : BOrder) : Prop := b.price ≤ a.price

/-- The comparison `sorted(key=price, reverse=False)` sorts by: ascending
price. -/
def rAsk (a b : BOrder) : Prop := a.price ≤ b.price

instance : DecidableRel rBid :=
  fun a b => inferInstanceAs (Decidable (b.price ≤ a.price))

instance : DecidableRel rAsk :=
  fun a b => inferInstanceAs (Decidable (a.price ≤ b.price))

instance : IsTotal BOrder rBid := ⟨fun a b => le_total b.price a.price⟩

instance : IsTotal BOrder rAsk := ⟨fun a b => le_total a.price b.price⟩

instance : IsTrans BOrder rBid := ⟨fun _ _ _ h1 h2 => le_trans h2 h1⟩

instance : IsTrans BOrder rAsk := ⟨fun _ _ _ h1 h2 => le_trans h1 h2⟩

/-- The `baseline` class of `baseline.py`: two plain lists. -/
structure baseline where
  bids : List BOrder
  asks : List BOrder
deriving DecidableEq

/-- `baseline.__init__`. -/
def baseline.init : baseline := ⟨[], []⟩

/-- `baseline.add_order`: append to the matching side, then re-sort that
side with Python's stable `sorted` (modelled by `List.insertionSort`, which
is stable in the same sense). -/
def baseline.add_order (bk : baseline) (o : BOrder) : baseline :=
  match o.side with
  | .bid => { bk with bids := List.insertionSort rBid (bk.bids ++ [o]) }
  | .ask => { bk with asks := List.insertionSort rAsk (bk.asks ++ [o]) }

/-- The per-element effect of the amend loops: set `quantity` on a matching
`order_id`, leave any other order untouched. -/
def amendQty (order_id : Nat) (q : Int) (o : BOrder) : BOrder :=
  if o.order_id = order_id then { o with quantity := q } else o

/-- `baseline.amend_order`: walk both sides setting the quantity of every
order carrying the id, then re-sort both sides. -/
def baseline.amend_order (bk : baseline) (order_id : Nat) (new_quantity : Int) : baseline :=
  { bids := List.insertionSort rBid (bk.bids.map (amendQty order_id new_quantity)),
    asks := List.insertionSort rAsk (bk.asks.map (amendQty order_id new_quantity)) }

/-- The delete loops of `baseline.delete_order` call `pop(index)` while
`enumerate` is iterating the same live list, so after a removal the element
that slid into the popped slot is skipped.  This is that exact traversal. -/
def pyPopScan {α : Type} (p : α → Bool) : List α → List α
  | [] => []
  | [x] => if p x then [] else [x]
  | x :: y :: xs => if p x then y :: pyPopScan p xs else x :: pyPopScan p (y :: xs)

/-- `baseline.delete_order`: run the pop-while-iterating scan on both sides,
then re-sort both. -/
def baseline.delete_order (bk : baseline) (order_id : Nat) : baseline :=
  { bids := List.insertionSort rBid (pyPopScan (fun o => o.order_id == order_id) bk.bids),
    asks := List.insertionSort rAsk (pyPopScan (fun o => o.order_id == order_id) bk.asks) }

/-- Python's `round` / `np.round` to an integer: round half to even.  The
fractional part of `q` is `(q.num − ⌊q⌋·q.den) / q.den`; comparing its
double against 1 decides between rounding down, rounding up, and the
half-way tie, which goes to the even neighbour. -/
def pyRound (q : ℚ) : ℤ :=
  let f := Rat.floor q
  let rnum := q.num - f * (q.den : ℤ)
  if 2 * rnum < (q.den : ℤ) then f
  else if (q.den : ℤ) < 2 * rnum then f + 1
  else if f % 2 = 0 then f else f + 1

/-- Naive best-bid query of `Query.py`: `base.bids[0]` (`none` when the
side is empty and the subscript would fault). -/
def baseline.best_bid (bk : baseline) : Option BOrder := bk.bids.head?

/-- Naive best-ask query of `Query.py`: `base.asks[0]`. -/
def baseline.best_ask (bk : baseline) : Option BOrder := bk.asks.head?

/-- Naive price-level query of `Query.py`: the ids of the orders of
`base.asks + base.bids`, in that iteration order, whose rounded price is
the level. -/
def baseline.at_price (bk : baseline) (level : ℤ) : List Nat :=
  ((bk.asks ++ bk.bids).filter (fun o => pyRound o.price == level)).map (·.order_id)

/-- The `optimization` class of `optimization.py`: one DataFrame whose rows
(in concatenation order) are the orders, indexed by `order_id`. -/
structure optimization where
  orders_df : List BOrder
deriving DecidableEq

/-- `optimization.__init__`. -/
def optimization.init : optimization := ⟨[]⟩

/-- `optimization.add_order` on a single-order frame: `pd.concat` appends
the row. -/
def optimization.add_order (opt : optimization) (o : BOrder) : optimization :=
  ⟨opt.orders_df ++ [o]⟩

/-- `optimization.amend_order` called with a list of ids:
`df.loc[ids, 'quantity'] = q` sets the quantity on every row carrying the
label and raises `KeyError` when the label is absent from the index. -/
def optimization.amend_order (opt : optimization) (order_id : Nat) (new_quantity : Int) :
    Except String optimization :=
  if opt.orders_df.any (fun o => o.order_id == order_id) then
    .ok ⟨opt.orders_df.map (amendQty order_id new_quantity)⟩
  else .error "KeyError"

/-- `optimization.delete_order`: `df.drop(ids)` removes every row carrying
the label and raises `KeyError` when it is absent. -/
def optimization.delete_order (opt : optimization) (order_id : Nat) :
    Except String optimization :=
  if opt.orders_df.any (fun o => o.order_id == order_id) then
    .ok ⟨opt.orders_df.filter (fun o => !(o.order_id == order_id))⟩
  else .error "KeyError"

/-- Optimized price-level query of `Query.py`:
`df.loc[np.round(df['price']) == level, 'order_id'].to_list()` — row order
of the frame. -/
def optimization.at_price (opt : optimization) (level : ℤ) : List Nat :=
  (opt.orders_df.filter (fun o => pyRound o.price == level)).map (·.order_id)

/-! ### The heap selection of `HeapSort_Opt.py` -/

/-- Swap two (in-bounds) rows of the numpy scratch array. -/
def lswap {α : Type} (l : List α) (i j : Nat) : List α :=
  match l.get? i, l.get? j with
  | some a, some b => (l.set i b).set j a
  | _, _ => l

/-- `arr[i, 1]` — the price column of the scratch array (every access in
the source is bounds-guarded). -/
def arrPrice (arr : List (Nat × ℚ)) (i : Nat) : ℚ :=
  ((arr.get? i).map Prod.snd).getD 0

/-- Python `max(a, b, c)` as a value. -/
def max3 (a b c : ℚ) : ℚ := max a (max b c)

/-- Python `min(a, b, c)` as a value. -/
def min3 (a b c : ℚ) : ℚ := min a (min b c)

/-- `heapify(arr, parent, asc)` of `HeapSort_Opt.py`.  The three `if`
statements run in sequence, the second re-reading the array the first may
have mutated; recursive calls descend to a child index.  `fuel` (the array
length at the call sites, an upper bound on the recursion depth) only makes
the recursion structural. -/
def heapify (asc : Bool) : Nat → List (Nat × ℚ) → Nat → List (Nat × ℚ)
  | 0, arr, _ => arr
  | fuel + 1, arr, parent =>
    let n := arr.length
    let lc := parent * 2 + 1
    let rc := parent * 2 + 2
    if lc < n then
      if asc = false then
        let a1 :=
          if rc < n ∧ arrPrice arr lc = max3 (arrPrice arr parent) (arrPrice arr lc) (arrPrice arr rc)
          then heapify asc fuel (lswap arr parent lc) lc else arr
        let a2 :=
          if rc < a1.length ∧ arrPrice a1 rc = max3 (arrPrice a1 parent) (arrPrice a1 rc) (arrPrice a1 lc)
          then heapify asc fuel (lswap a1 parent rc) rc else a1
        if rc = a2.length ∧ arrPrice a2 parent < arrPrice a2 lc then lswap a2 parent lc else a2
      else
        let a1 :=
          if rc < n ∧ arrPrice arr lc = min3 (arrPrice arr parent) (arrPrice arr rc) (arrPrice arr lc)
          then heapify asc fuel (lswap arr parent lc) lc else arr
        let a2 :=
          if rc < a1.length ∧ arrPrice a1 rc = min3 (arrPrice a1 parent) (arrPrice a1 rc) (arrPrice a1 lc)
          then heapify asc fuel (lswap a1 parent rc) rc else a1
        if rc = a2.length ∧ arrPrice a2 lc < arrPrice a2 parent then lswap a2 parent lc else a2
    else arr

/-- The selection loop of `sort`: while more than one row remains, heapify
every parent bottom-up, emit the rows of `df` carrying the root's label,
and drop the root; the final `else` branch emits the last label.  `fuel`
(the initial length) bounds the number of iterations. -/
def sortLoop (asc : Bool) (rows : List BOrder) : Nat → List (Nat × ℚ) → List BOrder
  | 0, _ => []
  | fuel + 1, arr =>
    if 1 < arr.length then
      let arr2 := ((List.range (arr.length / 2)).reverse).foldl
        (fun a parent => heapify asc a.length a parent) arr
      let lbl := ((arr2.get? 0).map Prod.fst).getD 0
      (rows.filter (fun o => o.order_id == lbl)) ++ sortLoop asc rows fuel arr2.tail
    else
      let lbl := ((arr.get? 0).map Prod.fst).getD 0
      rows.filter (fun o => o.order_id == lbl)

/-- `sort(df, 'price', asc)` of `HeapSort_Opt.py` (`none` for an empty
frame, where the source would fault subscripting an empty array). -/
def heapSort (asc : Bool) (rows : List BOrder) : Option (List BOrder) :=
  match rows with
  | [] => none
  | _ => some (sortLoop asc rows rows.length (rows.map (fun o => (o.order_id, o.price))))

/-- Optimized best-bid query of `Query.py`:
`sort(df.loc[df['side'] == 'bid'], 'price', asc=False).iloc[0, :]`. -/
def optimization.best_bid (opt : optimization) : Option BOrder :=
  (heapSort false (opt.orders_df.filter (fun o => o.side == Side.bid))).bind List.head?

/-- Optimized best-ask query of `Query.py`:
`sort(df.loc[df['side'] == 'ask'], 'price', asc=True).iloc[0, :]`. -/
def optimization.best_ask (opt : optimization) : Option BOrder :=
  (heapSort true (opt.orders_df.filter (fun o => o.side == Side.ask))).bind List.head?

/-! ### Driving both books with one operation sequence -/

/-- One book operation. -/
inductive Op
  | add (order_id : Nat) (price : ℚ) (quantity : Int) (side : Side)
  | amend (order_id : Nat) (new_quantity : Int)
  | delete (order_id : Nat)

/-- Naive run state: the book plus the arrival counter the driver stamps
onto added orders. -/
structure RunSt where
  book : baseline
  counter : Nat

/-- Apply one operation to the naive book. -/
def stepBase (st : RunSt) (op : Op) : RunSt :=
  match op with
  | .add i p q s => ⟨st.book.add_order ⟨i, p, q, s, st.counter⟩, st.counter + 1⟩
  | .amend i q => ⟨st.book.amend_order i q, st.counter⟩
  | .delete i => ⟨st.book.delete_order i, st.counter⟩

/-- Run an operation sequence on a fresh naive book. -/
def runBase (ops : List Op) : RunSt := ops.foldl stepBase ⟨baseline.init, 0⟩

/-- Optimized run state. -/
structure RunStO where
  df : optimization
  counter : Nat

/-- Apply one operation to the optimized book (amend and delete can raise
`KeyError`). -/
def stepOpt (st : RunStO) (op : Op) : Except String RunStO :=
  match op with
  | .add i p q s => .ok ⟨st.df.add_order ⟨i, p, q, s, st.counter⟩, st.counter + 1⟩
  | .amend i q => (st.df.amend_order i q).map (fun d => ⟨d, st.counter⟩)
  | .delete i => (st.df.delete_order i).map (fun d => ⟨d, st.counter⟩)

/-- Run an operation sequence on a fresh optimized book. -/
def runOpt (ops : List Op) : Except String RunStO :=
  ops.foldlM stepOpt ⟨optimization.init, 0⟩

/-- The resting ids of the naive book. -/
def idsOf (bk : baseline) : List Nat := (bk.bids ++ bk.asks).map (·.order_id)

/-- One operation is well formed in a state: adds carry a fresh id, amends
and deletes an id that is resting in the book. -/
def opOKb (st : RunSt) : Op → Bool
  | .add i _ _ _ => decide (i ∉ idsOf st.book)
  | .amend i _ => decide (i ∈ idsOf st.book)
  | .delete i => decide (i ∈ idsOf st.book)

/-- Well-formedness of a whole operation sequence from a given state. -/
def WFb : RunSt → List Op → Bool
  | _, [] => true
  | st, op :: ops => opOKb st op && WFb (stepBase st op) ops

/-- Time-priority tie-break: orders of equal price appear in arrival order
(earliest first). -/
def talePrec (a b : BOrder) : Prop := a.price = b.price → a.arrival < b.arrival

/-- Bid-side book order: strictly higher price first, price ties ranked by
earlier arrival. -/
def bidPriority (a b : BOrder) : Prop :=
  b.price < a.price ∨ (a.price = b.price ∧ a.arrival < b.arrival)

/-- Ask-side book order: strictly lower price first, price ties ranked by
earlier arrival. -/
def askPriority (a b : BOrder) : Prop :=
  a.price < b.price ∨ (a.price = b.price ∧ a.arrival < b.arrival)

/-- Sortedness invariant of one naive book side: price-sorted, arrival-
ordered on price ties, and all arrivals below the driver's counter. -/
def InvSide (r : BOrder → BOrder → Prop) (counter : Nat) (l : List BOrder) : Prop :=
  l.Sorted r ∧ l.Pairwise talePrec ∧ ∀ o ∈ l, o.arrival < counter

/-- Sortedness invariant of the whole naive run state. -/
def Inv (st : RunSt) : Prop :=
  InvSide rBid st.counter st.book.bids ∧ InvSide rAsk st.counter st.book.asks

/-- Coupling invariant between the two strategies: same arrival counter,
the optimized frame holds a permutation of the naive book's orders, and the
resting ids are distinct. -/
def EquivInv (stB : RunSt) (stO : RunStO) : Prop :=
  stB.counter = stO.counter
  ∧ (stB.book.bids ++ stB.book.asks).Perm stO.df.orders_df
  ∧ (idsOf stB.book).Nodup

end A2

open A4 A2

/-! ## Helper lemmas -/

theorem dictGet_dictSet_self (d : List (String × Int)) (k : String) (v : Int) :
    dictGet (dictSet d k v) k = v := by
  induction d with
  | nil => simp [dictGet, dictSet]
  | cons p d ih =>
    by_cases h : p.1 == k
    · simp [dictGet, dictSet, h]
    · simp only [dictSet, h, if_false, Bool.false_eq_true]
      simpa [dictGet, List.find?, h] using ih

/-! ## Lifecycle state machine (claim C3) -/

/-- C3: `Order.transition` succeeds, setting the state to the requested
one, exactly on the four pairs NEW→ACKED, NEW→REJECTED, ACKED→FILLED,
ACKED→CANCELED; on every other pair it reports failure and returns the
order unchanged.  In particular FILLED is only reachable from ACKED and no
transition leaves a terminal state. -/
theorem transition_characterization (o : A4.Order) (s : OrderState) :
    ((o.transition s).1 = true ↔
      (o.state, s) ∈ [(OrderState.NEW, OrderState.ACKED),
                      (OrderState.NEW, OrderState.REJECTED),
                      (OrderState.ACKED, OrderState.FILLED),
                      (OrderState.ACKED, OrderState.CANCELED)])
    ∧ ((o.transition s).1 = true → (o.transition s).2 = { o with state := s })
    ∧ ((o.transition s).1 = false → (o.transition s).2 = o) := by
  obtain ⟨sym, qty, side, st⟩ := o
  cases st <;> cases s <;>
    simp [Order.transition, allowedNext, List.mem_cons]

/-- Witness for C3 at concrete inputs: NEW→ACKED succeeds, NEW→FILLED is
refused and leaves the order as it was. -/
theorem transition_characterization_w :
    ((⟨"AAPL", 1, "BUY", OrderState.NEW⟩ : A4.Order).transition OrderState.ACKED).2
        = ⟨"AAPL", 1, "BUY", OrderState.ACKED⟩
    ∧ ((⟨"AAPL", 1, "BUY", OrderState.NEW⟩ : A4.Order).transition OrderState.FILLED).2
        = ⟨"AAPL", 1, "BUY", OrderState.NEW⟩ := by
  constructor
  · exact (transition_characterization ⟨"AAPL", 1, "BUY", OrderState.NEW⟩
      OrderState.ACKED).2.1 (by decide)
  · exact (transition_characterization ⟨"AAPL", 1, "BUY", OrderState.NEW⟩
      OrderState.FILLED).2.2 (by decide)

/-! ## Risk engine admission (claim C4) -/

/-- C4: `RiskEngine.check` admits an order exactly when the quantity is
within the order-size limit and the projected position (current position,
defaulting to 0 for an unseen symbol, plus the quantity for a buy, minus it
for a sell) stays within the position limit in absolute value; the size
rule is tested first and the first failing rule is the reported
rejection. -/
theorem check_characterization (e : RiskEngine) (o : A4.Order) :
    (e.check o = true ↔
      o.qty ≤ e.max_order_size ∧ |e.projected o| ≤ e.max_position)
    ∧ (e.projected o =
        dictGet e.positions o.symbol +
          (if pyUpper o.side = "BUY" then o.qty else -o.qty))
    ∧ (e.positions.find? (fun p => p.1 == o.symbol) = none →
        dictGet e.positions o.symbol = 0)
    ∧ (e.checkOutcome o = CheckOutcome.rejectSize ↔ e.max_order_size < o.qty)
    ∧ (e.checkOutcome o = CheckOutcome.rejectPosition ↔
        o.qty ≤ e.max_order_size ∧ e.max_position < |e.projected o|) := by
  refine ⟨?_, ?_, ?_, ?_, ?_⟩
  · simp only [RiskEngine.check, RiskEngine.checkOutcome]
    split_ifs with h1 h2 <;> simp <;> omega
  · simp only [RiskEngine.projected]
    split_ifs <;> [rfl; exact sub_eq_add_neg _ _]
  · intro h
    simp [dictGet, h]
  · simp only [RiskEngine.checkOutcome]
    split_ifs with h1 h2 <;> simp <;> omega
  · simp only [RiskEngine.checkOutcome]
    split_ifs with h1 h2 <;> simp <;> omega

/-- Witness for C4 at concrete inputs: a small buy on a fresh engine passes
both rules, and the unseen symbol defaults to position 0. -/
theorem check_characterization_w :
    RiskEngine.init.check ⟨"AAPL", 5, "BUY", OrderState.NEW⟩ = true
    ∧ dictGet RiskEngine.init.positions "AAPL" = 0 :=
  ⟨(check_characterization RiskEngine.init ⟨"AAPL", 5, "BUY", OrderState.NEW⟩).1.mpr
      (by decide),
   (check_characterization RiskEngine.init ⟨"AAPL", 5, "BUY", OrderState.NEW⟩).2.2.1 rfl⟩

/-! ## Position bookkeeping (claim C5) -/

/-- C5: `RiskEngine.update_position` is a strict no-op on any order that is
not FILLED; on a FILLED order it rewrites the symbol's position to the old
value (0 for an unseen symbol) plus the quantity for a buy, minus it for a
sell; and the fill sequence BUY 100, BUY 200, SELL 150 on one symbol leaves
a position of +150. -/
theorem update_position_characterization (e : RiskEngine) (o : A4.Order) :
    (o.state ≠ OrderState.FILLED → e.update_position o = e)
    ∧ (o.state = OrderState.FILLED →
        (e.update_position o).positions =
          dictSet e.positions o.symbol
            (dictGet e.positions o.symbol +
              (if pyUpper o.side = "BUY" then o.qty else -o.qty))
        ∧ (e.update_position o).get_position o.symbol =
            dictGet e.positions o.symbol +
              (if pyUpper o.side = "BUY" then o.qty else -o.qty))
    ∧ (((RiskEngine.init.update_position ⟨"AAPL", 100, "BUY", .FILLED⟩).update_position
          ⟨"AAPL", 200, "BUY", .FILLED⟩).update_position
          ⟨"AAPL", 150, "SELL", .FILLED⟩).get_position "AAPL" = 150 := by
  refine ⟨?_, ?_, by decide⟩
  · intro h
    simp [RiskEngine.update_position, h]
  · intro h
    have hpos : (e.update_position o).positions =
        dictSet e.positions o.symbol
          (dictGet e.positions o.symbol +
            (if pyUpper o.side = "BUY" then o.qty else -o.qty)) := by
      simp only [RiskEngine.update_position, h, ne_eq, not_true_eq_false, if_false]
      split_ifs <;> [rfl; rw [sub_eq_add_neg]]
    exact ⟨hpos, by rw [RiskEngine.get_position, hpos, dictGet_dictSet_self]⟩

/-- Witness for C5 at concrete inputs: a NEW order is ignored, a FILLED
sell of 5 moves an empty book to −5. -/
theorem update_position_characterization_w :
    (RiskEngine.init.update_position ⟨"X", 5, "SELL", OrderState.NEW⟩ = RiskEngine.init)
    ∧ (RiskEngine.init.update_position ⟨"X", 5, "SELL", OrderState.FILLED⟩).get_position "X" = -5 := by
  constructor
  · exact (update_position_characterization RiskEngine.init
      ⟨"X", 5, "SELL", OrderState.NEW⟩).1 (by decide)
  · have h := ((update_position_characterization RiskEngine.init
      ⟨"X", 5, "SELL", OrderState.FILLED⟩).2.1 rfl).2
    rw [h]; decide

/-! ## Purity of `check` (claim C9) -/

/-- C9: `RiskEngine.check` leaves the engine — positions and limits —
untouched, so any number of repeated calls on the state left behind return
the same boolean. -/
theorem check_is_pure (e : RiskEngine) (o : A4.Order) :
    (e.checkS o).2 = e ∧ ∀ k : Nat, e.checkIter o k = e.check o := by
  refine ⟨rfl, ?_⟩
  intro k
  induction k with
  | zero => rfl
  | succ k ih => simpa [RiskEngine.checkIter, RiskEngine.checkS] using ih

/-! ## Side classification of the risk engine (claim C10) -/

/-- C10: any side string that does not upper-case to `"BUY"` — including
the FIX buy code `"1"` — is treated as a sell by both `check` (the
projected position decreases) and `update_position` (the position is
decremented on fill), and the engine never rejects an order on account of
its side: every rejection is the size rule or the position rule. -/
theorem side_fallback_to_sell (e : RiskEngine) (o : A4.Order)
    (h : pyUpper o.side ≠ "BUY") :
    e.projected o = dictGet e.positions o.symbol - o.qty
    ∧ (e.check o = true ↔
        o.qty ≤ e.max_order_size ∧
          |dictGet e.positions o.symbol - o.qty| ≤ e.max_position)
    ∧ (o.state = OrderState.FILLED →
        (e.update_position o).get_position o.symbol =
          dictGet e.positions o.symbol - o.qty)
    ∧ (e.check o = true ∨ e.checkOutcome o = CheckOutcome.rejectSize
        ∨ e.checkOutcome o = CheckOutcome.rejectPosition) := by
  have hproj : e.projected o = dictGet e.positions o.symbol - o.qty := by
    simp [RiskEngine.projected, h]
  refine ⟨hproj, ?_, ?_, ?_⟩
  · simp only [RiskEngine.check, RiskEngine.checkOutcome, hproj]
    split_ifs with h1 h2 <;> simp <;> omega
  · intro hf
    simp only [RiskEngine.update_position, hf, ne_eq, not_true_eq_false, if_false,
      RiskEngine.get_position]
    rw [if_neg h, dictGet_dictSet_self]
  · cases hco : e.checkOutcome o <;> simp [RiskEngine.check, hco]

/-- Witness for C10 with the FIX wire code `"1"`: it is not `"BUY"` after
upper-casing and is projected as a sell. -/
theorem side_fallback_to_sell_w :
    pyUpper "1" ≠ "BUY"
    ∧ RiskEngine.init.projected ⟨"AAPL", 7, "1", OrderState.NEW⟩ = -7 := by
  constructor
  · decide
  · have h := (side_fallback_to_sell RiskEngine.init
      ⟨"AAPL", 7, "1", OrderState.NEW⟩ (by decide)).1
    rw [h]; decide

/-! ## FIX decoder (claim C8) -/

theorem getLastQ_cons {α : Type} (a : α) (l : List α) :
    (a :: l).getLast? = some (l.getLast?.getD a) := by
  cases l with
  | nil => rfl
  | cons b t =>
    rw [List.getLast?_cons_cons]
    have hne : (b :: t) ≠ ([] : List α) := by simp
    rw [List.getLast?_eq_getLast_of_ne_nil hne]
    rfl

theorem pyLookup_pySet {β : Type} (d : List (String × β)) (k k' : String) (v : β) :
    pyLookup (pySet d k v) k' = if k = k' then some v else pyLookup d k' := by
  induction d with
  | nil =>
    by_cases h : k = k'
    · subst h; simp [pySet, pyLookup]
    · simp [pySet, pyLookup, beq_eq_false_iff_ne.mpr h, h]
  | cons p d ih =>
    by_cases hpk : p.1 = k
    · have hb : (p.1 == k) = true := beq_iff_eq.mpr hpk
      by_cases h : k = k'
      · subst h
        simp [pySet, pyLookup, hb]
      · have hbk : (k == k') = false := beq_eq_false_iff_ne.mpr h
        have hbp : (p.1 == k') = false := beq_eq_false_iff_ne.mpr (hpk ▸ h)
        simp [pySet, pyLookup, hb, hbk, hbp, h]
    · have hb : (p.1 == k) = false := beq_eq_false_iff_ne.mpr hpk
      by_cases hpk' : p.1 = k'
      · have hkk : k ≠ k' := fun he => hpk (he ▸ hpk')
        have hbp : (p.1 == k') = true := beq_iff_eq.mpr hpk'
        simp [pySet, pyLookup, hb, hbp, hkk]
      · have hbp : (p.1 == k') = false := beq_eq_false_iff_ne.mpr hpk'
        simpa [pySet, pyLookup, hb, hbp] using ih

/-- Under well-formed tags the field loop never raises, and the final dict
maps every field name to the last value supplied for it (falling back to
the incoming dict `acc`). -/
theorem parseFieldsAux_total :
    ∀ (fs : List String) (acc : List (String × String)),
      (∀ f ∈ fs, ∀ tv : String × String,
        splitField f = some tv → (pyToInt tv.1).isSome = true) →
      ∃ d, parseFieldsAux fs acc = Except.ok d ∧
        ∀ nm, pyLookup d nm =
          match lastTagged fs nm with
          | some v => some v
          | none => pyLookup acc nm := by
  intro fs
  induction fs with
  | nil =>
    intro acc _
    refine ⟨acc, rfl, fun nm => ?_⟩
    simp [lastTagged]
  | cons f fs ih =>
    intro acc h
    have hf : ∀ f' ∈ fs, ∀ tv : String × String,
        splitField f' = some tv → (pyToInt tv.1).isSome = true :=
      fun f' hm tv ht => h f' (List.mem_cons_of_mem _ hm) tv ht
    cases hsf : splitField f with
    | none =>
      obtain ⟨d, hd, hl⟩ := ih acc hf
      refine ⟨d, by simp only [parseFieldsAux, hsf]; exact hd, fun nm => ?_⟩
      rw [hl nm]
      have he : lastTagged (f :: fs) nm = lastTagged fs nm := by
        simp [lastTagged, List.filterMap_cons, hsf]
      rw [he]
    | some tv =>
      obtain ⟨t, v⟩ := tv
      have hint := h f (List.mem_cons_self f fs) (t, v) hsf
      obtain ⟨tn, htn⟩ := Option.isSome_iff_exists.mp hint
      cases htag : tagName tn with
      | none =>
        obtain ⟨d, hd, hl⟩ := ih acc hf
        refine ⟨d, by simp only [parseFieldsAux, hsf, htn, htag]; exact hd, fun nm => ?_⟩
        rw [hl nm]
        have he : lastTagged (f :: fs) nm = lastTagged fs nm := by
          simp [lastTagged, List.filterMap_cons, hsf, htn, htag]
        rw [he]
      | some nm' =>
        obtain ⟨d, hd, hl⟩ := ih (pySet acc nm' v) hf
        refine ⟨d, by simp only [parseFieldsAux, hsf, htn, htag]; exact hd, fun nm => ?_⟩
        rw [hl nm]
        have htn' : pyToInt t = some tn := htn
        have hcons : lastTagged (f :: fs) nm =
            if nm' = nm then some ((lastTagged fs nm).getD v)
            else lastTagged fs nm := by
          by_cases he : nm' = nm
          · have hpred : ((pyToInt t).bind tagName == some nm) = true := by
              simp [htn', htag, he]
            rw [if_pos he]
            simp [lastTagged, List.filterMap_cons, hsf, List.filter_cons, hpred,
              getLastQ_cons]
          · rw [if_neg he]
            simp [lastTagged, List.filterMap_cons, hsf, htn', htag, he]
        rw [hcons]
        by_cases he : nm' = nm
        · rw [if_pos he]
          cases hlt : lastTagged fs nm with
          | some w => simp
          | none => simp [pyLookup_pySet, he]
        · rw [if_neg he]
          cases hlt : lastTagged fs nm with
          | some w => simp
          | none => simp [pyLookup_pySet, he]

theorem side_whitelisted (sd : String) :
    ((SIDES.find? (fun p => p.1 == sd)).isSome = true) ↔ (sd = "1" ∨ sd = "2") := by
  by_cases h1 : sd = "1"
  · subst h1; simp [SIDES, List.find?]
  · by_cases h2 : sd = "2"
    · subst h2; simp [SIDES, List.find?]
    · have hb1 : (("1" : String) == sd) = false := beq_eq_false_iff_ne.mpr (Ne.symm h1)
      have hb2 : (("2" : String) == sd) = false := beq_eq_false_iff_ne.mpr (Ne.symm h2)
      simp [SIDES, List.find?, hb1, hb2, h1, h2]

/-- Counterexample to C8 as stated: a `MsgType=D` message carrying all the
mandatory fields with a valid side still fails to parse, solely because the
extra field `foo=bar` has a tag that is not an integer — `int(tag)` runs
before the whitelist test, so a non-numeric unknown tag is not ignored but
crashes the decode; removing that one field makes the same message parse. -/
theorem fix_unknown_tag_crash :
    FixParser.parse "35=D|55=AAPL|54=1|40=2|foo=bar" =
      Except.error "ValueError: invalid literal for int with base 10: foo"
    ∧ FixParser.parse "35=D|55=AAPL|54=1|40=2" =
      Except.ok [("MsgType", "D"), ("Symbol", "AAPL"), ("Side", "1"), ("OrdType", "2")] :=
  ⟨rfl, rfl⟩

/-- C8 amended: restricted to messages whose `'='`-fields all carry integer
tags (any other field crashes the decode with an unhandled `ValueError`),
parsing an order-creation message (MsgType D) fails exactly when one of
Symbol, Side, OrdType is absent or the Side value is outside {"1", "2"};
integer tags outside the whitelist are ignored; and on success the returned
mapping holds, for every whitelisted field, precisely the last literal value
supplied for it on the wire. -/
theorem parse_spec (msg : String)
    (htags : tagsOkB msg = true)
    (hD : pyLookup (extractD msg) "MsgType" = some "D") :
    FixParser.extract msg = Except.ok (extractD msg)
    ∧ (∀ nm, pyLookup (extractD msg) nm = lastSupplied msg nm)
    ∧ ((∃ dd, FixParser.parse msg = Except.ok dd) ↔
        ((pyLookup (extractD msg) "Symbol").isSome = true
          ∧ (pyLookup (extractD msg) "Side").isSome = true
          ∧ (pyLookup (extractD msg) "OrdType").isSome = true
          ∧ (pyLookup (extractD msg) "Side" = some "1"
              ∨ pyLookup (extractD msg) "Side" = some "2")))
    ∧ (∀ dd, FixParser.parse msg = Except.ok dd → dd = extractD msg) := by
  have hfields : ∀ f ∈ pySplit '|' msg, ∀ tv : String × String,
      splitField f = some tv → (pyToInt tv.1).isSome = true := by
    intro f hm tv ht
    have hmem : tv ∈ fieldsOf msg := List.mem_filterMap.mpr ⟨f, hm, ht⟩
    exact List.all_eq_true.mp htags tv hmem
  obtain ⟨d, hd, hl⟩ := parseFieldsAux_total (pySplit '|' msg) [] hfields
  have hext : FixParser.extract msg = Except.ok d := hd
  have hDd : extractD msg = d := by simp [extractD, hext]
  rw [hDd] at hD ⊢
  have hlook : ∀ nm, pyLookup d nm = lastSupplied msg nm := by
    intro nm
    rw [hl nm]
    cases h : lastTagged (pySplit '|' msg) nm <;> simp [lastSupplied, h, pyLookup]
  have hparse : FixParser.parse msg =
      (match FixParser.validate d with
       | Except.error e => Except.error e
       | Except.ok _ => Except.ok d) := by
    simp only [FixParser.parse]
    rw [hext]
  have hval : FixParser.validate d =
      (match pyLookup d "Symbol" with
       | none => Except.error "Missing required field: Symbol"
       | some _ =>
         match pyLookup d "Side" with
         | none => Except.error "Missing required field: Side"
         | some sd =>
           match pyLookup d "OrdType" with
           | none => Except.error "Missing required field: OrdType"
           | some _ =>
             if (SIDES.find? (fun p => p.1 == sd)).isSome then Except.ok ()
             else Except.error ("Invalid side: " ++ sd)) := by
    simp only [FixParser.validate]
    rw [hD]
    simp
  refine ⟨hext, hlook, ?_, ?_⟩
  · rw [hparse, hval]
    cases hS : pyLookup d "Symbol" with
    | none => simp
    | some s =>
      cases hSd : pyLookup d "Side" with
      | none => simp
      | some sd =>
        cases hO : pyLookup d "OrdType" with
        | none => simp
        | some ot =>
          by_cases hws : sd = "1" ∨ sd = "2"
          · have hfind : (SIDES.find? (fun p => p.1 == sd)).isSome = true :=
              (side_whitelisted sd).mpr hws
            simp [hfind, hws]
          · have hfind : (SIDES.find? (fun p => p.1 == sd)).isSome = false := by
              cases hb : (SIDES.find? (fun p => p.1 == sd)).isSome with
              | false => rfl
              | true => exact absurd ((side_whitelisted sd).mp hb) hws
            simp [hfind, hws]
  · intro dd hdd
    rw [hparse] at hdd
    cases hv : FixParser.validate d with
    | error e => rw [hv] at hdd; simp at hdd
    | ok u =>
      rw [hv] at hdd
      simpa using hdd.symm

/-- Witness for C8 on the source's own test message: all tags are integers,
the message is an order creation, it parses, and the Symbol field of the
extracted mapping is exactly the supplied literal. -/
theorem parse_spec_w :
    tagsOkB "8=FIX.4.2|35=D|55=AAPL|54=1|40=2|11=ORDER123|10=128" = true
    ∧ pyLookup (extractD "8=FIX.4.2|35=D|55=AAPL|54=1|40=2|11=ORDER123|10=128") "MsgType" = some "D"
    ∧ (∃ dd, FixParser.parse "8=FIX.4.2|35=D|55=AAPL|54=1|40=2|11=ORDER123|10=128" = Except.ok dd)
    ∧ pyLookup (extractD "8=FIX.4.2|35=D|55=AAPL|54=1|40=2|11=ORDER123|10=128") "Symbol" =
        lastSupplied "8=FIX.4.2|35=D|55=AAPL|54=1|40=2|11=ORDER123|10=128" "Symbol" := by
  have h := parse_spec "8=FIX.4.2|35=D|55=AAPL|54=1|40=2|11=ORDER123|10=128" rfl rfl
  exact ⟨rfl, rfl, h.2.2.1.mpr ⟨rfl, rfl, rfl, Or.inl rfl⟩, h.2.1 "Symbol"⟩

/-! ## Stability of the naive book's sorting (helper lemmas for C2/C6/C7/C1) -/

theorem amendQty_price (i : Nat) (q : Int) (o : BOrder) :
    (amendQty i q o).price = o.price := by
  unfold amendQty; split <;> rfl

theorem amendQty_arrival (i : Nat) (q : Int) (o : BOrder) :
    (amendQty i q o).arrival = o.arrival := by
  unfold amendQty; split <;> rfl

theorem amendQty_order_id (i : Nat) (q : Int) (o : BOrder) :
    (amendQty i q o).order_id = o.order_id := by
  unfold amendQty; split <;> rfl

theorem amendQty_side (i : Nat) (q : Int) (o : BOrder) :
    (amendQty i q o).side = o.side := by
  unfold amendQty; split <;> rfl

theorem pairwise_orderedInsert {α : Type} (r : α → α → Prop) [DecidableRel r]
    (P : α → α → Prop) (a : α) :
    ∀ l : List α, l.Pairwise P → (∀ b ∈ l, P a b) → (∀ b ∈ l, ¬ r a b → P b a) →
      (l.orderedInsert r a).Pairwise P := by
  intro l
  induction l with
  | nil =>
    intro _ _ _
    simp [List.orderedInsert]
  | cons b bs ih =>
    intro hl ha hw
    obtain ⟨hb, hbs⟩ := List.pairwise_cons.mp hl
    rw [List.orderedInsert]
    by_cases hr : r a b
    · rw [if_pos hr]
      exact List.Pairwise.cons ha hl
    · rw [if_neg hr]
      refine List.Pairwise.cons ?_
        (ih hbs (fun c hc => ha c (List.mem_cons_of_mem _ hc))
          (fun c hc hrc => hw c (List.mem_cons_of_mem _ hc) hrc))
      intro c hc
      rcases (List.mem_orderedInsert r).mp hc with hca | hc'
      · subst hca
        exact hw b (List.mem_cons_self _ _) hr
      · exact hb c hc'

/-- Stability of insertion sort: any pairwise relation `P` compatible with
the sort order (`¬ r x y` forces `P y x`) survives the sort.  With `P` =
"equal price implies earlier arrival first" this is precisely the stability
of Python's `sorted` on the price key. -/
theorem pairwise_insertionSort {α : Type} (r : α → α → Prop) [DecidableRel r]
    (P : α → α → Prop) (hw : ∀ x y : α, ¬ r x y → P y x) :
    ∀ l : List α, l.Pairwise P → (l.insertionSort r).Pairwise P := by
  intro l
  induction l with
  | nil => intro _; simp
  | cons a l ih =>
    intro hl
    obtain ⟨h1, h2⟩ := List.pairwise_cons.mp hl
    rw [List.insertionSort]
    refine pairwise_orderedInsert r P a _ (ih h2) ?_ ?_
    · intro b hb
      exact h1 b ((List.perm_insertionSort r l).mem_iff.mp hb)
    · intro b _ hr
      exact hw a b hr

theorem rBid_talePrec : ∀ x y : BOrder, ¬ rBid x y → talePrec y x := by
  intro x y h hpq
  exfalso
  have hlt := not_le.mp h
  rw [hpq] at hlt
  exact lt_irrefl _ hlt

theorem rAsk_talePrec : ∀ x y : BOrder, ¬ rAsk x y → talePrec y x := by
  intro x y h hpq
  exfalso
  have hlt := not_le.mp h
  rw [hpq] at hlt
  exact lt_irrefl _ hlt

theorem pyPopScan_sublist {α : Type} (p : α → Bool) :
    ∀ l : List α, List.Sublist (pyPopScan p l) l
  | [] => by simp [pyPopScan]
  | [x] => by
    by_cases h : p x <;> simp [pyPopScan, h]
  | x :: y :: xs => by
    by_cases h : p x
    · simp only [pyPopScan, h, if_true]
      exact List.Sublist.cons x (List.Sublist.cons₂ y (pyPopScan_sublist p xs))
    · simp only [pyPopScan, h, Bool.false_eq_true, if_false]
      exact List.Sublist.cons₂ x (pyPopScan_sublist p (y :: xs))

theorem invSide_of_pairwise (r : BOrder → BOrder → Prop) [DecidableRel r]
    [IsTotal BOrder r] [IsTrans BOrder r]
    (hw : ∀ x y : BOrder, ¬ r x y → talePrec y x)
    (counter : Nat) (l : List BOrder)
    (hp : l.Pairwise talePrec) (hb : ∀ o ∈ l, o.arrival < counter) :
    InvSide r counter (List.insertionSort r l) :=
  ⟨List.sorted_insertionSort r l,
   pairwise_insertionSort r talePrec hw l hp,
   fun x hx => hb x ((List.perm_insertionSort r l).mem_iff.mp hx)⟩

theorem invSide_add (r : BOrder → BOrder → Prop) [DecidableRel r]
    [IsTotal BOrder r] [IsTrans BOrder r]
    (hw : ∀ x y : BOrder, ¬ r x y → talePrec y x)
    (counter : Nat) (l : List BOrder) (o : BOrder)
    (h : InvSide r counter l) (ho : o.arrival = counter) :
    InvSide r (counter + 1) (List.insertionSort r (l ++ [o])) := by
  obtain ⟨hs, hp, hb⟩ := h
  refine invSide_of_pairwise r hw (counter + 1) (l ++ [o]) ?_ ?_
  · rw [List.pairwise_append]
    refine ⟨hp, List.pairwise_singleton _ _, ?_⟩
    intro x hx y hy
    rcases List.mem_singleton.mp hy with rfl
    intro _
    rw [ho]
    exact hb x hx
  · intro x hx
    rcases List.mem_append.mp hx with h1 | h2
    · exact Nat.lt_succ_of_lt (hb x h1)
    · rcases List.mem_singleton.mp h2 with rfl
      rw [ho]
      exact Nat.lt_succ_self _

theorem inv_step (st : RunSt) (op : Op) (h : Inv st) : Inv (stepBase st op) := by
  obtain ⟨⟨hbs, hbp, hbb⟩, ⟨has, hap, hab⟩⟩ := h
  cases op with
  | add i p q s =>
    cases s with
    | bid =>
      simp only [stepBase, baseline.add_order]
      exact ⟨invSide_add rBid rBid_talePrec st.counter st.book.bids _ ⟨hbs, hbp, hbb⟩ rfl,
        ⟨has, hap, fun o ho => Nat.lt_succ_of_lt (hab o ho)⟩⟩
    | ask =>
      simp only [stepBase, baseline.add_order]
      exact ⟨⟨hbs, hbp, fun o ho => Nat.lt_succ_of_lt (hbb o ho)⟩,
        invSide_add rAsk rAsk_talePrec st.counter st.book.asks _ ⟨has, hap, hab⟩ rfl⟩
  | amend i q =>
    simp only [stepBase, baseline.amend_order]
    constructor
    · refine invSide_of_pairwise rBid rBid_talePrec _ _ ?_ ?_
      · refine hbp.map (amendQty i q) ?_
        intro a b hab' hpq
        rw [amendQty_arrival, amendQty_arrival]
        rw [amendQty_price, amendQty_price] at hpq
        exact hab' hpq
      · intro x hx
        rcases List.mem_map.mp hx with ⟨y, hy, rfl⟩
        rw [amendQty_arrival]
        exact hbb y hy
    · refine invSide_of_pairwise rAsk rAsk_talePrec _ _ ?_ ?_
      · refine hap.map (amendQty i q) ?_
        intro a b hab' hpq
        rw [amendQty_arrival, amendQty_arrival]
        rw [amendQty_price, amendQty_price] at hpq
        exact hab' hpq
      · intro x hx
        rcases List.mem_map.mp hx with ⟨y, hy, rfl⟩
        rw [amendQty_arrival]
        exact hab y hy
  | delete i =>
    simp only [stepBase, baseline.delete_order]
    constructor
    · refine invSide_of_pairwise rBid rBid_talePrec _ _ ?_ ?_
      · exact List.Pairwise.sublist (pyPopScan_sublist _ _) hbp
      · intro x hx
        exact hbb x ((pyPopScan_sublist _ _).subset hx)
    · refine invSide_of_pairwise rAsk rAsk_talePrec _ _ ?_ ?_
      · exact List.Pairwise.sublist (pyPopScan_sublist _ _) hap
      · intro x hx
        exact hab x ((pyPopScan_sublist _ _).subset hx)

theorem inv_runBase_aux : ∀ (ops : List Op) (st : RunSt), Inv st → Inv (ops.foldl stepBase st) := by
  intro ops
  induction ops with
  | nil => intro st h; exact h
  | cons op ops ih => intro st h; exact ih _ (inv_step st op h)

/-- C2: after any finite operation sequence on the naive book, the bids are
pairwise ordered by strictly descending price with price ties in arrival
order (earliest first), and the asks by strictly ascending price with the
same tie-break; since this holds for every sequence it holds at every
intermediate step, so no caller observes a partially reordered side. -/
theorem naive_book_sorted (ops : List Op) :
    ((runBase ops).book.bids.Pairwise bidPriority)
    ∧ ((runBase ops).book.asks.Pairwise askPriority) := by
  have h : Inv (runBase ops) :=
    inv_runBase_aux ops ⟨baseline.init, 0⟩
      ⟨⟨List.sorted_nil, List.Pairwise.nil, by simp [baseline.init]⟩,
       ⟨List.sorted_nil, List.Pairwise.nil, by simp [baseline.init]⟩⟩
  obtain ⟨⟨hbs, hbp, _⟩, ⟨has, hap, _⟩⟩ := h
  constructor
  · refine (List.Pairwise.and hbs hbp).imp ?_
    rintro a b ⟨hle, htp⟩
    rcases lt_or_eq_of_le hle with hlt | heq
    · exact Or.inl hlt
    · exact Or.inr ⟨heq.symm, htp heq.symm⟩
  · refine (List.Pairwise.and has hap).imp ?_
    rintro a b ⟨hle, htp⟩
    rcases lt_or_eq_of_le hle with hlt | heq
    · exact Or.inl hlt
    · exact Or.inr ⟨heq, htp heq⟩

/-! ## Misuse of the naive book (claim C6) -/

theorem pyPopScan_id {α : Type} (p : α → Bool) :
    ∀ l : List α, (∀ x ∈ l, p x = false) → pyPopScan p l = l
  | [] => fun _ => rfl
  | [x] => fun h => by
    simp [pyPopScan, h x (List.mem_singleton_self x)]
  | x :: y :: xs => fun h => by
    have hx : p x = false := h x (List.mem_cons_self _ _)
    have hrest : ∀ z ∈ y :: xs, p z = false :=
      fun z hz => h z (List.mem_cons_of_mem _ hz)
    simp only [pyPopScan, hx, Bool.false_eq_true, if_false]
    rw [pyPopScan_id p (y :: xs) hrest]

theorem map_amendQty_id (i : Nat) (q : Int) (l : List BOrder)
    (h : ∀ o ∈ l, o.order_id ≠ i) : l.map (amendQty i q) = l := by
  induction l with
  | nil => rfl
  | cons o l ih =>
    rw [List.map_cons, ih (fun o' ho' => h o' (List.mem_cons_of_mem _ ho'))]
    have ho : o.order_id ≠ i := h o (List.mem_cons_self _ _)
    simp [amendQty, ho]

theorem sorted_rBid_map_amendQty (i : Nat) (q : Int) (l : List BOrder)
    (h : l.Sorted rBid) : (l.map (amendQty i q)).Sorted rBid :=
  List.Pairwise.map (amendQty i q)
    (fun a b hab => by
      unfold rBid
      rw [amendQty_price, amendQty_price]
      exact hab)
    h

theorem sorted_rAsk_map_amendQty (i : Nat) (q : Int) (l : List BOrder)
    (h : l.Sorted rAsk) : (l.map (amendQty i q)).Sorted rAsk :=
  List.Pairwise.map (amendQty i q)
    (fun a b hab => by
      unfold rAsk
      rw [amendQty_price, amendQty_price]
      exact hab)
    h

/-- Counterexample to C6 as stated: every misuse succeeds silently on the
naive book.  Adding a second order with the already-resting id 5 leaves two
id-5 orders in the book (no DuplicateId); amending the unknown id 99 and
deleting the unknown id 99 both return the book unchanged (no NotFound);
amending to the non-positive quantity −3 simply stores −3 (no
InvalidQuantity). -/
theorem book_misuse_counterexample :
    ((runBase [Op.add 5 10 1 Side.bid, Op.add 5 20 2 Side.bid]).book.bids.map
        (fun o => o.order_id) = [5, 5])
    ∧ ((runBase [Op.add 5 10 1 Side.bid]).book.amend_order 99 7
        = (runBase [Op.add 5 10 1 Side.bid]).book)
    ∧ (((runBase [Op.add 5 10 1 Side.bid]).book.amend_order 5 (-3)).bids
        = [⟨5, 10, -3, Side.bid, 0⟩])
    ∧ ((runBase [Op.add 5 10 1 Side.bid]).book.delete_order 99
        = (runBase [Op.add 5 10 1 Side.bid]).book) := by
  refine ⟨?_, ?_, ?_, ?_⟩ <;> decide

/-- C6 amended: none of the misuses fail — `add_order` inserts
unconditionally (a duplicate id simply rests twice), `amend_order` of an
id absent from a sorted book is a silent no-op, `amend_order` stores any
new quantity (non-positive included) without complaint, and `delete_order`
of an absent id is a silent no-op. -/
theorem book_misuse_silent (bk : baseline) (o : BOrder) (i : Nat) (q : Int)
    (hb : bk.bids.Sorted rBid) (ha : bk.asks.Sorted rAsk)
    (hi : i ∉ idsOf bk) :
    (o.side = Side.bid →
      ((bk.add_order o).bids).Perm (o :: bk.bids) ∧ (bk.add_order o).asks = bk.asks)
    ∧ (o.side = Side.ask →
      ((bk.add_order o).asks).Perm (o :: bk.asks) ∧ (bk.add_order o).bids = bk.bids)
    ∧ bk.amend_order i q = bk
    ∧ bk.delete_order i = bk
    ∧ (∀ j : Nat, ∀ q' : Int,
        (bk.amend_order j q').bids = bk.bids.map (amendQty j q')
        ∧ (bk.amend_order j q').asks = bk.asks.map (amendQty j q')) := by
  have hbnot : ∀ o' ∈ bk.bids, o'.order_id ≠ i := by
    intro o' ho' he
    exact hi (List.mem_map.mpr ⟨o', List.mem_append.mpr (Or.inl ho'), he⟩)
  have hanot : ∀ o' ∈ bk.asks, o'.order_id ≠ i := by
    intro o' ho' he
    exact hi (List.mem_map.mpr ⟨o', List.mem_append.mpr (Or.inr ho'), he⟩)
  have hamend : ∀ j : Nat, ∀ q' : Int,
      (bk.amend_order j q').bids = bk.bids.map (amendQty j q')
      ∧ (bk.amend_order j q').asks = bk.asks.map (amendQty j q') := by
    intro j q'
    constructor
    · exact List.Sorted.insertionSort_eq (sorted_rBid_map_amendQty j q' _ hb)
    · exact List.Sorted.insertionSort_eq (sorted_rAsk_map_amendQty j q' _ ha)
  refine ⟨?_, ?_, ?_, ?_, hamend⟩
  · intro hside
    have hred : bk.add_order o =
        { bk with bids := List.insertionSort rBid (bk.bids ++ [o]) } := by
      unfold baseline.add_order
      rw [hside]
    rw [hred]
    exact ⟨(List.perm_insertionSort rBid _).trans List.perm_append_comm, rfl⟩
  · intro hside
    have hred : bk.add_order o =
        { bk with asks := List.insertionSort rAsk (bk.asks ++ [o]) } := by
      unfold baseline.add_order
      rw [hside]
    rw [hred]
    exact ⟨(List.perm_insertionSort rAsk _).trans List.perm_append_comm, rfl⟩
  · have h1 : (bk.amend_order i q).bids = bk.bids := by
      rw [(hamend i q).1, map_amendQty_id i q _ hbnot]
    have h2 : (bk.amend_order i q).asks = bk.asks := by
      rw [(hamend i q).2, map_amendQty_id i q _ hanot]
    cases bk with
    | mk bids asks =>
      have h1' := h1
      have h2' := h2
      simp only at h1' h2'
      rw [show (baseline.mk bids asks).amend_order i q =
          ⟨((baseline.mk bids asks).amend_order i q).bids,
           ((baseline.mk bids asks).amend_order i q).asks⟩ from rfl, h1', h2']
  · have h1 : (bk.delete_order i).bids = bk.bids := by
      show List.insertionSort rBid (pyPopScan (fun o => o.order_id == i) bk.bids) = bk.bids
      rw [pyPopScan_id _ _ (fun x hx => beq_eq_false_iff_ne.mpr (hbnot x hx))]
      exact List.Sorted.insertionSort_eq hb
    have h2 : (bk.delete_order i).asks = bk.asks := by
      show List.insertionSort rAsk (pyPopScan (fun o => o.order_id == i) bk.asks) = bk.asks
      rw [pyPopScan_id _ _ (fun x hx => beq_eq_false_iff_ne.mpr (hanot x hx))]
      exact List.Sorted.insertionSort_eq ha
    cases bk with
    | mk bids asks =>
      have h1' := h1
      have h2' := h2
      simp only at h1' h2'
      rw [show (baseline.mk bids asks).delete_order i =
          ⟨((baseline.mk bids asks).delete_order i).bids,
           ((baseline.mk bids asks).delete_order i).asks⟩ from rfl, h1', h2']

/-- Witness for C6 amended on a one-order book: deleting the unknown id 99
is a no-op and amending order 5 to quantity −3 stores −3. -/
theorem book_misuse_silent_w :
    ((⟨[⟨5, 10, 1, Side.bid, 0⟩], []⟩ : baseline).delete_order 99
        = (⟨[⟨5, 10, 1, Side.bid, 0⟩], []⟩ : baseline))
    ∧ ((⟨[⟨5, 10, 1, Side.bid, 0⟩], []⟩ : baseline).amend_order 5 (-3)).bids
        = [⟨5, 10, -3, Side.bid, 0⟩] := by
  have h := book_misuse_silent ⟨[⟨5, 10, 1, Side.bid, 0⟩], []⟩ ⟨5, 10, 1, Side.bid, 0⟩
    99 0 (by simp [rBid]) (by simp) (by decide)
  refine ⟨h.2.2.2.1, ?_⟩
  rw [(h.2.2.2.2 5 (-3)).1]
  decide

/-! ## Frame property of amend (claim C7) -/

/-- C7: on a sorted book holding exactly one order with the amended id,
`amend_order` is pointwise: each side becomes its own quantity-rewrite,
every order keeps its slot (same index) and all its non-quantity fields,
orders with a different id are untouched, and the one matching order
changes only its quantity — an amend never jumps the queue. -/
theorem amend_preserves_slots (bk : baseline) (i : Nat) (q : Int)
    (hb : bk.bids.Sorted rBid) (ha : bk.asks.Sorted rAsk)
    (huniq : (bk.bids ++ bk.asks).countP (fun o => o.order_id == i) = 1) :
    (bk.amend_order i q).bids = bk.bids.map (amendQty i q)
    ∧ (bk.amend_order i q).asks = bk.asks.map (amendQty i q)
    ∧ (∀ n : Nat, ((bk.amend_order i q).bids[n]?).map
          (fun o => (o.order_id, o.price, o.side, o.arrival))
        = (bk.bids[n]?).map (fun o => (o.order_id, o.price, o.side, o.arrival)))
    ∧ (∀ n : Nat, ((bk.amend_order i q).asks[n]?).map
          (fun o => (o.order_id, o.price, o.side, o.arrival))
        = (bk.asks[n]?).map (fun o => (o.order_id, o.price, o.side, o.arrival)))
    ∧ (∀ n : Nat, ∀ o : BOrder, bk.bids[n]? = some o → o.order_id ≠ i →
        (bk.amend_order i q).bids[n]? = some o)
    ∧ (∀ n : Nat, ∀ o : BOrder, bk.bids[n]? = some o → o.order_id = i →
        (bk.amend_order i q).bids[n]? = some { o with quantity := q })
    ∧ (∀ n : Nat, ∀ o : BOrder, bk.asks[n]? = some o → o.order_id ≠ i →
        (bk.amend_order i q).asks[n]? = some o)
    ∧ (∀ n : Nat, ∀ o : BOrder, bk.asks[n]? = some o → o.order_id = i →
        (bk.amend_order i q).asks[n]? = some { o with quantity := q }) := by
  have hmb : (bk.amend_order i q).bids = bk.bids.map (amendQty i q) :=
    List.Sorted.insertionSort_eq (sorted_rBid_map_amendQty i q _ hb)
  have hma : (bk.amend_order i q).asks = bk.asks.map (amendQty i q) :=
    List.Sorted.insertionSort_eq (sorted_rAsk_map_amendQty i q _ ha)
  refine ⟨hmb, hma, ?_, ?_, ?_, ?_, ?_, ?_⟩
  · intro n
    rw [hmb, List.getElem?_map]
    cases bk.bids[n]? with
    | none => rfl
    | some o =>
      simp only [Option.map_some', Option.some.injEq, Prod.mk.injEq]
      exact ⟨amendQty_order_id i q o, amendQty_price i q o,
        amendQty_side i q o, amendQty_arrival i q o⟩
  · intro n
    rw [hma, List.getElem?_map]
    cases bk.asks[n]? with
    | none => rfl
    | some o =>
      simp only [Option.map_some', Option.some.injEq, Prod.mk.injEq]
      exact ⟨amendQty_order_id i q o, amendQty_price i q o,
        amendQty_side i q o, amendQty_arrival i q o⟩
  · intro n o hn ho
    rw [hmb, List.getElem?_map, hn]
    simp [amendQty, ho]
  · intro n o hn ho
    rw [hmb, List.getElem?_map, hn]
    simp [amendQty, ho]
  · intro n o hn ho
    rw [hma, List.getElem?_map, hn]
    simp [amendQty, ho]
  · intro n o hn ho
    rw [hma, List.getElem?_map, hn]
    simp [amendQty, ho]

/-- Witness for C7 on a two-order book: amending bid 1 to quantity 3 keeps
it in slot 0 with all fields but the quantity intact. -/
theorem amend_preserves_slots_w :
    ((⟨[⟨1, 10, 5, Side.bid, 0⟩], [⟨2, 12, 7, Side.ask, 1⟩]⟩ : baseline).amend_order 1 3).bids
      = [⟨1, 10, 3, Side.bid, 0⟩] := by
  have h := amend_preserves_slots ⟨[⟨1, 10, 5, Side.bid, 0⟩], [⟨2, 12, 7, Side.ask, 1⟩]⟩ 1 3
    (by simp [rBid]) (by simp [rAsk]) (by decide)
  rw [h.1]
  decide

/-! ## Strategy equivalence (claim C1) -/

theorem pyPopScan_eq_filter {α : Type} (p : α → Bool) :
    ∀ l : List α, l.countP p ≤ 1 → pyPopScan p l = l.filter (fun a => !p a)
  | [] => fun _ => rfl
  | [x] => fun _ => by
    by_cases h : p x <;> simp [pyPopScan, List.filter, h]
  | x :: y :: xs => fun hc => by
    by_cases h : p x
    · rw [List.countP_cons_of_pos p _ h] at hc
      have h1 : (y :: xs).countP p = 0 := by omega
      have hy' : ¬ p y = true := List.countP_eq_zero.mp h1 y (List.mem_cons_self _ _)
      have hy : p y = false := Bool.eq_false_iff.mpr hy'
      have hxs : xs.countP p ≤ 1 := by
        rw [List.countP_cons_of_neg p _ hy'] at h1
        omega
      simp only [pyPopScan, h, if_true]
      rw [pyPopScan_eq_filter p xs hxs]
      simp [List.filter, h, hy]
    · have hx' : p x = false := Bool.eq_false_iff.mpr h
      have hrest : (y :: xs).countP p ≤ 1 := by
        rw [List.countP_cons_of_neg p _ h] at hc
        exact hc
      simp only [pyPopScan, h, Bool.false_eq_true, if_false]
      rw [pyPopScan_eq_filter p (y :: xs) hrest]
      simp [List.filter, hx']

theorem countP_le_one_of_nodup_map {α : Type} (f : α → Nat) (l : List α)
    (h : (l.map f).Nodup) (b : Nat) : l.countP (fun x => f x == b) ≤ 1 := by
  induction l with
  | nil => simp
  | cons a l ih =>
    rw [List.map_cons, List.nodup_cons] at h
    by_cases hb : (f a == b) = true
    · have hfa : f a = b := beq_iff_eq.mp hb
      have hz : l.countP (fun x => f x == b) = 0 := by
        rw [List.countP_eq_zero]
        intro x hx hpx
        have hfx : f x = b := beq_iff_eq.mp hpx
        exact h.1 (List.mem_map.mpr ⟨x, hx, hfx.trans hfa.symm⟩)
      rw [List.countP_cons_of_pos (fun x => f x == b) l hb, hz]
    · rw [List.countP_cons_of_neg (fun x => f x == b) l hb]
      exact ih h.2

theorem map_id_amendQty (i : Nat) (q : Int) (l : List BOrder) :
    (l.map (amendQty i q)).map (fun o => o.order_id) = l.map (fun o => o.order_id) := by
  rw [List.map_map]
  exact List.map_congr_left fun o _ => amendQty_order_id i q o

theorem any_id_of_mem (df : List BOrder) (i : Nat)
    (h : ∃ o ∈ df, o.order_id = i) : df.any (fun o => o.order_id == i) = true := by
  rcases h with ⟨o, ho, hid⟩
  exact List.any_eq_true.mpr ⟨o, ho, beq_iff_eq.mpr hid⟩

theorem nodup_append_fresh (l : List Nat) (i : Nat) (hnd : l.Nodup) (hf : i ∉ l) :
    (l ++ [i]).Nodup :=
  (List.perm_append_comm.nodup_iff).mpr (List.nodup_cons.mpr ⟨hf, hnd⟩)

theorem perm_add_bid (bids asks df : List BOrder) (o : BOrder)
    (hperm : (bids ++ asks).Perm df) :
    ((List.insertionSort rBid (bids ++ [o])) ++ asks).Perm (df ++ [o]) := by
  refine ((List.perm_insertionSort rBid (bids ++ [o])).append_right asks).trans ?_
  have h2 : ((bids ++ [o]) ++ asks).Perm ((bids ++ asks) ++ [o]) := by
    rw [List.append_assoc, List.append_assoc]
    exact List.Perm.append_left bids List.perm_append_comm
  exact h2.trans (hperm.append_right [o])

theorem perm_add_ask (bids asks df : List BOrder) (o : BOrder)
    (hperm : (bids ++ asks).Perm df) :
    (bids ++ (List.insertionSort rAsk (asks ++ [o]))).Perm (df ++ [o]) := by
  refine (List.Perm.append_left bids (List.perm_insertionSort rAsk (asks ++ [o]))).trans ?_
  rw [← List.append_assoc]
  exact hperm.append_right [o]

theorem equiv_step (stB : RunSt) (stO : RunStO) (op : Op)
    (h : EquivInv stB stO) (hop : opOKb stB op = true) :
    ∃ stO', stepOpt stO op = Except.ok stO' ∧ EquivInv (stepBase stB op) stO' := by
  obtain ⟨hcnt, hperm, hnd⟩ := h
  cases op with
  | add i p q s =>
    have hfresh : i ∉ idsOf stB.book := by
      simp only [opOKb] at hop
      exact of_decide_eq_true hop
    refine ⟨⟨stO.df.add_order ⟨i, p, q, s, stO.counter⟩, stO.counter + 1⟩, rfl, ?_⟩
    rw [← hcnt]
    have hidsp : ∀ (bids' asks' : List BOrder),
        (bids' ++ asks').Perm ((stB.book.bids ++ stB.book.asks) ++ [(⟨i, p, q, s, stB.counter⟩ : BOrder)]) →
        EquivInv ⟨⟨bids', asks'⟩, stB.counter + 1⟩
          ⟨stO.df.add_order ⟨i, p, q, s, stB.counter⟩, stB.counter + 1⟩ := by
      intro bids' asks' hp
      refine ⟨rfl, ?_, ?_⟩
      · exact hp.trans (hperm.append_right _)
      · show ((bids' ++ asks').map (fun o => o.order_id)).Nodup
        refine ((hp.map (fun o => o.order_id)).nodup_iff).mpr ?_
        rw [List.map_append]
        exact nodup_append_fresh _ i hnd hfresh
    cases s with
    | bid =>
      have hsb : stepBase stB (Op.add i p q Side.bid) =
          ⟨⟨List.insertionSort rBid (stB.book.bids ++ [⟨i, p, q, Side.bid, stB.counter⟩]),
            stB.book.asks⟩, stB.counter + 1⟩ := rfl
      rw [hsb]
      refine hidsp _ _ ?_
      refine ((List.perm_insertionSort rBid _).append_right _).trans ?_
      rw [List.append_assoc, List.append_assoc]
      exact List.Perm.append_left _ List.perm_append_comm
    | ask =>
      have hsb : stepBase stB (Op.add i p q Side.ask) =
          ⟨⟨stB.book.bids,
            List.insertionSort rAsk (stB.book.asks ++ [⟨i, p, q, Side.ask, stB.counter⟩])⟩,
            stB.counter + 1⟩ := rfl
      rw [hsb]
      refine hidsp _ _ ?_
      refine (List.Perm.append_left _ (List.perm_insertionSort rAsk _)).trans ?_
      rw [← List.append_assoc]
  | amend i q =>
    have hmem : i ∈ idsOf stB.book := by
      simp only [opOKb] at hop
      exact of_decide_eq_true hop
    obtain ⟨o', ho', hid⟩ := List.mem_map.mp hmem
    have hany : stO.df.orders_df.any (fun o => o.order_id == i) = true :=
      any_id_of_mem _ _ ⟨o', hperm.subset ho', hid⟩
    have hstep : stepOpt stO (Op.amend i q) =
        Except.ok ⟨⟨stO.df.orders_df.map (amendQty i q)⟩, stO.counter⟩ := by
      simp only [stepOpt, optimization.amend_order, hany, if_true, Except.map]
    refine ⟨_, hstep, hcnt, ?_, ?_⟩
    · show ((List.insertionSort rBid (stB.book.bids.map (amendQty i q))
          ++ List.insertionSort rAsk (stB.book.asks.map (amendQty i q)))).Perm
        (stO.df.orders_df.map (amendQty i q))
      refine ((List.perm_insertionSort rBid _).append (List.perm_insertionSort rAsk _)).trans ?_
      rw [← List.map_append]
      exact hperm.map _
    · show (((List.insertionSort rBid (stB.book.bids.map (amendQty i q))
          ++ List.insertionSort rAsk (stB.book.asks.map (amendQty i q)))).map
            (fun o => o.order_id)).Nodup
      have hp : ((List.insertionSort rBid (stB.book.bids.map (amendQty i q))
          ++ List.insertionSort rAsk (stB.book.asks.map (amendQty i q)))).Perm
            ((stB.book.bids ++ stB.book.asks).map (amendQty i q)) := by
        refine ((List.perm_insertionSort rBid _).append (List.perm_insertionSort rAsk _)).trans ?_
        rw [← List.map_append]
      refine ((hp.map (fun o => o.order_id)).nodup_iff).mpr ?_
      rw [map_id_amendQty]
      exact hnd
  | delete i =>
    have hmem : i ∈ idsOf stB.book := by
      simp only [opOKb] at hop
      exact of_decide_eq_true hop
    obtain ⟨o', ho', hid⟩ := List.mem_map.mp hmem
    have hany : stO.df.orders_df.any (fun o => o.order_id == i) = true :=
      any_id_of_mem _ _ ⟨o', hperm.subset ho', hid⟩
    have hstep : stepOpt stO (Op.delete i) =
        Except.ok ⟨⟨stO.df.orders_df.filter (fun o => !(o.order_id == i))⟩, stO.counter⟩ := by
      simp only [stepOpt, optimization.delete_order, hany, if_true, Except.map]
    have hnd' : ((stB.book.bids ++ stB.book.asks).map (fun o : BOrder => o.order_id)).Nodup := hnd
    have hcap : (stB.book.bids ++ stB.book.asks).countP (fun o => o.order_id == i) ≤ 1 :=
      countP_le_one_of_nodup_map (fun o : BOrder => o.order_id) _ hnd' i
    rw [List.countP_append] at hcap
    have hcb : stB.book.bids.countP (fun o => o.order_id == i) ≤ 1 := by omega
    have hca : stB.book.asks.countP (fun o => o.order_id == i) ≤ 1 := by omega
    have hfb : pyPopScan (fun o => o.order_id == i) stB.book.bids
        = stB.book.bids.filter (fun o => !(o.order_id == i)) :=
      pyPopScan_eq_filter _ _ hcb
    have hfa : pyPopScan (fun o => o.order_id == i) stB.book.asks
        = stB.book.asks.filter (fun o => !(o.order_id == i)) :=
      pyPopScan_eq_filter _ _ hca
    refine ⟨_, hstep, hcnt, ?_, ?_⟩
    · show ((List.insertionSort rBid (pyPopScan (fun o => o.order_id == i) stB.book.bids)
          ++ List.insertionSort rAsk (pyPopScan (fun o => o.order_id == i) stB.book.asks))).Perm
        (stO.df.orders_df.filter (fun o => !(o.order_id == i)))
      rw [hfb, hfa]
      refine ((List.perm_insertionSort rBid _).append (List.perm_insertionSort rAsk _)).trans ?_
      rw [← List.filter_append]
      exact hperm.filter _
    · show (((List.insertionSort rBid (pyPopScan (fun o => o.order_id == i) stB.book.bids)
          ++ List.insertionSort rAsk (pyPopScan (fun o => o.order_id == i) stB.book.asks))).map
            (fun o => o.order_id)).Nodup
      rw [hfb, hfa]
      have hp : ((stB.book.bids.filter (fun o => !(o.order_id == i))
          ++ stB.book.asks.filter (fun o => !(o.order_id == i)))).Perm
            ((stB.book.bids ++ stB.book.asks).filter (fun o => !(o.order_id == i))) := by
        rw [List.filter_append]
      refine (((((List.perm_insertionSort rBid _).append
        (List.perm_insertionSort rAsk _)).trans hp).map (fun o => o.order_id)).nodup_iff).mpr ?_
      exact List.Nodup.sublist
        ((List.filter_sublist _).map (fun o : BOrder => o.order_id)) hnd'

theorem equiv_run : ∀ (ops : List Op) (stB : RunSt) (stO : RunStO),
    EquivInv stB stO → WFb stB ops = true →
    ∃ stO', ops.foldlM stepOpt stO = Except.ok stO'
      ∧ EquivInv (ops.foldl stepBase stB) stO' := by
  intro ops
  induction ops with
  | nil =>
    intro stB stO h _
    exact ⟨stO, rfl, h⟩
  | cons op ops ih =>
    intro stB stO h hwf
    simp only [WFb, Bool.and_eq_true] at hwf
    obtain ⟨stO1, hok, h1⟩ := equiv_step stB stO op h hwf.1
    obtain ⟨stO', hok', h'⟩ := ih (stepBase stB op) stO1 h1 hwf.2
    refine ⟨stO', ?_, h'⟩
    rw [List.foldlM_cons, hok]
    simpa using hok'

/-- Counterexample to C1 as stated.  First run: a bid (id 0) and an ask
(id 1) both at price 190 — the naive at-price query walks `asks + bids` and
returns `[1, 0]`, the optimized one walks the frame in insertion order and
returns `[0, 1]`: the two reported lists differ (and neither is the claim's
time-ordered list in general).  Second run: three bids at the same price —
the naive best-bid is the earliest (id 0, by stable sort), the heap-based
best-bid of the optimized book is id 2: the best-of queries differ on
price ties. -/
theorem strategy_equiv_counterexample :
    ((runBase [Op.add 0 190 1 Side.bid, Op.add 1 190 1 Side.ask]).book.at_price 190 = [1, 0])
    ∧ ((match runOpt [Op.add 0 190 1 Side.bid, Op.add 1 190 1 Side.ask] with
        | Except.ok st => st.df.at_price 190
        | Except.error _ => []) = [0, 1])
    ∧ ((runBase [Op.add 0 100 1 Side.bid, Op.add 1 100 1 Side.bid,
        Op.add 2 100 1 Side.bid]).book.best_bid = some ⟨0, 100, 1, Side.bid, 0⟩)
    ∧ ((runOpt [Op.add 0 100 1 Side.bid, Op.add 1 100 1 Side.bid,
        Op.add 2 100 1 Side.bid]).map (fun st => st.df.best_bid)
        = Except.ok (some ⟨2, 100, 1, Side.bid, 2⟩)) := by
  refine ⟨by decide, by decide, by rfl, by rfl⟩

/-- C1 amended: for every well-formed operation sequence (fresh ids on add,
resting ids on amend/delete) applied identically to both books, the
optimized run succeeds and the two books hold the same multiset of orders
at every step, so the at-price query results agree as multisets (the same
ids, possibly in different order) at every step; exact equality of
observable order fails — the naive and optimized at-price orderings differ
and the heap-based best-of breaks price ties differently from the stable
baseline. -/
theorem strategy_equiv_multiset (ops : List Op)
    (h : WFb ⟨baseline.init, 0⟩ ops = true) :
    ∃ stO, runOpt ops = Except.ok stO
      ∧ ((runBase ops).book.asks ++ (runBase ops).book.bids).Perm stO.df.orders_df
      ∧ (∀ level : ℤ, ((runBase ops).book.at_price level).Perm (stO.df.at_price level)) := by
  obtain ⟨stO, hok, _, hperm, _⟩ :=
    equiv_run ops ⟨baseline.init, 0⟩ ⟨optimization.init, 0⟩
      ⟨rfl, by simp [baseline.init, optimization.init], by simp [idsOf, baseline.init]⟩ h
  refine ⟨stO, hok, List.perm_append_comm.trans hperm, ?_⟩
  intro level
  show ((((runBase ops).book.asks ++ (runBase ops).book.bids).filter
      (fun o => pyRound o.price == level)).map (fun o => o.order_id)).Perm
    ((stO.df.orders_df.filter (fun o => pyRound o.price == level)).map (fun o => o.order_id))
  exact ((List.perm_append_comm.trans hperm).filter _).map _

/-- Witness for C1 amended on a four-operation sequence exercising add,
amend and delete. -/
theorem strategy_equiv_multiset_w :
    WFb ⟨baseline.init, 0⟩
      [Op.add 1 10 5 Side.bid, Op.add 2 12 7 Side.ask, Op.amend 1 3, Op.delete 2] = true
    ∧ ∃ stO,
        runOpt [Op.add 1 10 5 Side.bid, Op.add 2 12 7 Side.ask, Op.amend 1 3, Op.delete 2]
          = Except.ok stO
        ∧ ((runBase [Op.add 1 10 5 Side.bid, Op.add 2 12 7 Side.ask, Op.amend 1 3,
              Op.delete 2]).book.asks
            ++ (runBase [Op.add 1 10 5 Side.bid, Op.add 2 12 7 Side.ask, Op.amend 1 3,
              Op.delete 2]).book.bids).Perm stO.df.orders_df
        ∧ (∀ level : ℤ,
            ((runBase [Op.add 1 10 5 Side.bid, Op.add 2 12 7 Side.ask, Op.amend 1 3,
              Op.delete 2]).book.at_price level).Perm (stO.df.at_price level)) :=
  ⟨by decide, strategy_equiv_multiset _ (by decide)⟩
